import Mathlib

/-!
# Verification of the `team-voices` MCP server core

Shallow embedding of `plugins/team-voices/server/lib.mjs`: the bounded
playback queue (`enqueue` / `drain`), the message-deduplication set
(`isDuplicate`), the text preparation pipeline (`prepareText`,
`prepareProtocolText`, `stripMarkdown`, `shouldSpeak`,
`isIdleNotification`) and the round-robin voice-assignment table
(`assignVoice`, `manualAssignVoice`, `getVoiceForAgent`).

Modelling decisions, stated once here:

* JavaScript `Map` / `Set` (insertion ordered) are embedded as
  association lists `List (String × α)` resp. `List String` kept in
  insertion order and free of duplicate keys by construction.
* The SHA-256 digest used by `isDuplicate` is embedded as the identity
  on its input string `from ++ text ++ timestamp`: the digest of a
  string is deterministic, so two equal concatenations always receive
  the equal digest, which is the only property of the hash the
  claims depend on.  Distinct concatenations are modelled as distinct
  fingerprints (true up to SHA-256 collisions).
* `drain` is asynchronous in JavaScript.  We embed its run-to-quiescence
  behaviour: one call processes queued items one at a time until the
  queue is empty, recording for each item the call to the injected
  `generateTTS` collaborator (trace `synthCalls`) and, when neither
  synthesis nor playback throws, the call to the playback collaborator
  (trace `played`).  An error oracle `errs : QItem → Bool` says whether
  the synthesis/playback of an item throws; the thrown error is caught,
  logged (trace `errLog`) and the loop continues, exactly as the
  `try`/`catch` in the source.  A `drain` entered while `isPlaying` is
  set returns immediately without touching the state, exactly as the
  guard in the source; this is also the state of affairs while the
  queue is "blocked" on a pending synthesis.
-/

set_option maxRecDepth 10000
set_option linter.unusedVariables false

namespace TeamVoices

/-! ## Data model -/

/-- A playback-queue item `{text, voiceId, from, bypassMute}`.
In JavaScript `bypassMute` may be absent (falsy); we embed it as a
`Bool` that is `false` in that case. -/
structure QItem where
  text : String
  voiceId : String
  sender : Option String := none
  bypassMute : Bool := false
  deriving Repr, DecidableEq

/-- The per-process mutable state of `createTeamVoicesServer` that the
audio queue touches, together with the event traces of the injected
collaborators (`synthCalls` records arguments of `generateTTS` calls,
`played` records playback invocations, `errLog` records caught
per-item errors). -/
structure ServerSt where
  muted : Bool
  queue : List QItem
  isPlaying : Bool
  synthCalls : List QItem
  played : List QItem
  errLog : List QItem
  deriving Repr, DecidableEq

/-- The idle initial state of a fresh server instance. -/
def ServerSt.init : ServerSt :=
  { muted := false
    queue := []
    isPlaying := false
    synthCalls := []
    played := []
    errLog := [] }

/-! ## Audio queue (`lib.mjs` lines 154–177) -/

/-- One iteration body plus recursion of
```js
async function drain() {
  if (isPlaying || queue.length === 0) return;
  isPlaying = true;
  const item = queue.shift();
  try { ...generateTTS...; ...execAsync(play)...; ...unlink... }
  catch (err) { log(`TTS error: ...`); }
  isPlaying = false;
  drain();
}
```
run to quiescence.  `errs item = true` means the synthesis or playback
of `item` throws; `generateTTS` has been invoked either way (the call
is what throws), so `synthCalls` always records the item, while the
playback completion `played` is only recorded on success. -/
def drain (errs : QItem → Bool) (st : ServerSt) : ServerSt :=
  if st.isPlaying || st.queue.isEmpty then st
  else
    match hq : st.queue with
    | [] => st
    | item :: rest =>
      let st1 : ServerSt :=
        { st with
          isPlaying := true
          queue := rest
          synthCalls := st.synthCalls ++ [item] }
      let st2 : ServerSt :=
        if errs item then { st1 with errLog := st1.errLog ++ [item] }
        else { st1 with played := st1.played ++ [item] }
      drain errs { st2 with isPlaying := false }
  termination_by st.queue.length
  decreasing_by
    simp only [st2, st1, hq]
    split <;> simp

/-- The queue-update portion of `enqueue` (lines 155–157):
```js
if (muted && !item.bypassMute) return;
if (queue.length >= 10) queue.splice(0, queue.length - 5);
queue.push(item);
```
`queue.splice(0, queue.length - 5)` removes the first `length - 5`
elements, keeping the 5 most recent. -/
def enqueueUpdate (queue : List QItem) (item : QItem) : List QItem :=
  let queue := if queue.length ≥ 10 then queue.drop (queue.length - 5) else queue
  queue ++ [item]

/-- `enqueue(item)` (lines 154–159): mute gate, backlog trim, push,
then a (non-awaited) `drain()` attempt. -/
def enqueue (errs : QItem → Bool) (st : ServerSt) (item : QItem) : ServerSt :=
  if st.muted && !item.bypassMute then st
  else drain errs { st with queue := enqueueUpdate st.queue item }

/-! ## Deduplication (`isDuplicate`, lines 97–108) -/

/-- An inbox message `{from, text, timestamp, summary?}`.  Fields that
JavaScript leaves `undefined` are embedded as `Option`. -/
structure Msg where
  sender : Option String := none
  text : Option String := none
  timestamp : Option String := none
  summary : Option String := none
  deriving Repr, DecidableEq

/-- The duplicate fingerprint
`` sha256(`${msg.from || ''}${msg.text || ''}${msg.timestamp || ''}`) ``,
with the digest embedded as the identity on the concatenated key (see
the header comment).  `x || ''` yields `''` exactly when the field is
absent or the empty string, which `Option.getD ""` matches. -/
def fingerprint (msg : Msg) : String :=
  (msg.sender.getD "") ++ (msg.text.getD "") ++ (msg.timestamp.getD "")

/-- `isDuplicate(msg, seenHashes)` (lines 97–108).  The JavaScript `Set`
is embedded as the insertion-ordered list `seen`;
`seenHashes.values().next().value` is its oldest (first) element.
Returns the boolean result and the updated set. -/
def isDuplicate (msg : Msg) (seen : List String) : Bool × List String :=
  let hash := fingerprint msg
  if seen.contains hash then (true, seen)
  else
    let seen := seen ++ [hash]
    if seen.length > 100 then (false, seen.tail) else (false, seen)

/-- Folding `isDuplicate` over a list of messages, keeping the set. -/
def runDedup (msgs : List Msg) (seen : List String) : List String :=
  msgs.foldl (fun s m => (isDuplicate m s).2) seen

/-! ## JSON values and `JSON.parse`

`lib.mjs` calls the JavaScript builtin `JSON.parse` in
`isIdleNotification` and `prepareText`.  We embed JSON values as an
inductive type and `JSON.parse` as a fuel-indexed recursive-descent
parser over the characters of the string, following the JSON grammar
(whitespace = space/tab/LF/CR; strings with the standard escapes;
numbers as exact decimals `mantissa · 10^exponent`; `true`, `false`,
`null`; arrays; objects, where a duplicated key keeps the last
binding, as `JSON.parse` does).  A parse error (`JSON.parse` throwing)
is `none`. -/

/-- A parsed JSON value.  A number is the exact decimal
`mantissa * 10 ^ exponent`. -/
inductive JVal where
  | str (s : String)
  | num (mantissa : Int) (exponent : Int)
  | bool (b : Bool)
  | null
  | arr (elems : List JVal)
  | obj (fields : List (String × JVal))

/-- JSON whitespace accepted between tokens by `JSON.parse`. -/
def jsonWs (c : Char) : Bool :=
  c = ' ' || c = '\t' || c = '\n' || c = '\r'

/-- Skip JSON whitespace. -/
def skipWs (cs : List Char) : List Char :=
  cs.dropWhile jsonWs

/-- Hexadecimal digit value, for `\uXXXX` escapes. -/
def hexVal (c : Char) : Option Nat :=
  if '0' ≤ c ∧ c ≤ '9' then some (c.toNat - 48)
  else if 'a' ≤ c ∧ c ≤ 'f' then some (c.toNat - 87)
  else if 'A' ≤ c ∧ c ≤ 'F' then some (c.toNat - 55)
  else none

/-- Body of a JSON string after the opening quote: the accumulated
content and the remainder after the closing quote.  Raw control
characters and invalid escapes make `JSON.parse` throw (`none`). -/
def parseStrRest : List Char → String → Option (String × List Char)
  | [], _ => none
  | '"' :: rest, acc => some (acc, rest)
  | '\\' :: 'u' :: h1 :: h2 :: h3 :: h4 :: rest, acc =>
    match hexVal h1, hexVal h2, hexVal h3, hexVal h4 with
    | some a, some b, some c, some d =>
      parseStrRest rest (acc.push (Char.ofNat (((a * 16 + b) * 16 + c) * 16 + d)))
    | _, _, _, _ => none
  | '\\' :: e :: rest, acc =>
    if e = '"' then parseStrRest rest (acc.push '"')
    else if e = '\\' then parseStrRest rest (acc.push '\\')
    else if e = '/' then parseStrRest rest (acc.push '/')
    else if e = 'b' then parseStrRest rest (acc.push (Char.ofNat 8))
    else if e = 'f' then parseStrRest rest (acc.push (Char.ofNat 12))
    else if e = 'n' then parseStrRest rest (acc.push '\n')
    else if e = 'r' then parseStrRest rest (acc.push '\r')
    else if e = 't' then parseStrRest rest (acc.push '\t')
    else none
  | c :: rest, acc =>
    if c.toNat < 32 then none else parseStrRest rest (acc.push c)

/-- Digits to a natural number. -/
def natOfDigits (ds : List Char) : Nat :=
  ds.foldl (fun n c => n * 10 + (c.toNat - 48)) 0

/-- A JSON number token `-? int frac? exp?` (leading zeros rejected,
as by `JSON.parse`), as an exact decimal. -/
def parseNum (cs : List Char) : Option (JVal × List Char) :=
  let (neg, cs) := match cs with
    | '-' :: rest => (true, rest)
    | _ => (false, cs)
  let (intDs, cs) := cs.span Char.isDigit
  if intDs.isEmpty then none
  else if intDs.head? = some '0' ∧ intDs.length > 1 then none
  else
    -- a '.' must be followed by at least one digit
    let hasDot : Bool := match cs with | '.' :: _ => true | _ => false
    let (fracDs, cs) := match cs with
      | '.' :: rest => rest.span Char.isDigit
      | _ => ([], cs)
    if hasDot ∧ fracDs.isEmpty then none
    else
      let mant : Int := Int.ofNat (natOfDigits (intDs ++ fracDs))
      let mant := if neg then -mant else mant
      let e0 : Int := -(Int.ofNat fracDs.length)
      match cs with
      | 'e' :: rest | 'E' :: rest =>
        let (esign, rest) := match rest with
          | '+' :: r => ((1 : Int), r)
          | '-' :: r => ((-1 : Int), r)
          | _ => ((1 : Int), rest)
        let (expDs, rest) := rest.span Char.isDigit
        if expDs.isEmpty then none
        else some (.num mant (e0 + esign * Int.ofNat (natOfDigits expDs)), rest)
      | _ => some (.num mant e0, cs)

mutual

/-- One JSON value and the remainder.  The fuel only bounds recursion
depth; `2 * length + 2` always suffices. -/
def parseVal : Nat → List Char → Option (JVal × List Char)
  | 0, _ => none
  | fuel + 1, cs =>
    match skipWs cs with
    | '{' :: rest => parseObjRest fuel rest []
    | '[' :: rest => parseArrRest fuel rest []
    | '"' :: rest => (parseStrRest rest "").map fun p => (JVal.str p.1, p.2)
    | 't' :: 'r' :: 'u' :: 'e' :: rest => some (.bool true, rest)
    | 'f' :: 'a' :: 'l' :: 's' :: 'e' :: rest => some (.bool false, rest)
    | 'n' :: 'u' :: 'l' :: 'l' :: rest => some (.null, rest)
    | c :: rest =>
      if c = '-' || c.isDigit then parseNum (c :: rest) else none
    | [] => none

/-- Object members after `{` or after a `,` (so a trailing comma is a
parse error, as for `JSON.parse`). -/
def parseObjRest : Nat → List Char → List (String × JVal) → Option (JVal × List Char)
  | 0, _, _ => none
  | fuel + 1, cs, acc =>
    match skipWs cs with
    | '}' :: rest => if acc.isEmpty then some (.obj [], rest) else none
    | '"' :: rest =>
      match parseStrRest rest "" with
      | none => none
      | some (key, cs1) =>
        match skipWs cs1 with
        | ':' :: cs2 =>
          match parseVal fuel cs2 with
          | none => none
          | some (v, cs3) =>
            match skipWs cs3 with
            | ',' :: cs4 => parseObjRest fuel cs4 (acc ++ [(key, v)])
            | '}' :: cs4 => some (.obj (acc ++ [(key, v)]), cs4)
            | _ => none
        | _ => none
    | _ => none

/-- Array elements after `[` or after a `,`. -/
def parseArrRest : Nat → List Char → List JVal → Option (JVal × List Char)
  | 0, _, _ => none
  | fuel + 1, cs, acc =>
    match skipWs cs with
    | ']' :: rest => if acc.isEmpty then some (.arr [], rest) else none
    | cs' =>
      match parseVal fuel cs' with
      | none => none
      | some (v, cs1) =>
        match skipWs cs1 with
        | ',' :: cs2 => parseArrRest fuel cs2 (acc ++ [v])
        | ']' :: cs2 => some (.arr (acc ++ [v]), cs2)
        | _ => none

end

/-- `JSON.parse`: a complete value with only whitespace around it. -/
def jsonParse (s : String) : Option JVal :=
  match parseVal (2 * s.length + 2) s.data with
  | some (v, rest) => if (skipWs rest).isEmpty then some v else none
  | none => none

/-- Property access `parsed[k]` on a parsed JSON value: only objects
have fields; a duplicated key keeps its last binding (as `JSON.parse`
builds the object by successive assignment). -/
def jGet (v : JVal) (k : String) : Option JVal :=
  match v with
  | .obj fields => fields.foldl (fun acc p => if p.1 = k then some p.2 else acc) none
  | _ => none

/-- JavaScript truthiness of a possibly-absent (`undefined`) value:
`undefined`, `null`, `''`, `0` and `false` are falsy; objects and
arrays are always truthy. -/
def jTruthy : Option JVal → Bool
  | none => false
  | some (.str s) => s ≠ ""
  | some (.num m _) => m ≠ 0
  | some (.bool b) => b
  | some .null => false
  | some (.obj _) => true
  | some (.arr _) => true

mutual

/-- Template-literal interpolation `${v}` of a parsed JSON value.  In
the source this is only ever reached with string-valued protocol
fields; for a non-integer number the JavaScript decimal rendering is
approximated. -/
def jDisplay : JVal → String
  | .str s => s
  | .num m e => if e = 0 then toString m else toString m ++ "e" ++ toString e
  | .bool b => cond b "true" "false"
  | .null => "null"
  | .obj _ => "[object Object]"
  | .arr els => String.intercalate "," (jDisplayList els)

def jDisplayList : List JVal → List String
  | [] => []
  | v :: rest => jDisplay v :: jDisplayList rest

end

/-! ## Message formatting (`lib.mjs` lines 37–95) -/

/-- JavaScript `\s` on the character set that can occur here. -/
def jsWs (c : Char) : Bool :=
  c = ' ' || c = '\t' || c = '\n' || c = '\r' || c = Char.ofNat 11 || c = Char.ofNat 12

/-- `text.startsWith('{')` — the one-character JavaScript
`String.prototype.startsWith` check, embedded over the characters. -/
def startsWithLbrace (s : String) : Bool :=
  match s.data with
  | c :: _ => c = '{'
  | [] => false

/-- JavaScript `String.prototype.trim`: strip whitespace from both
ends. -/
def jsTrim (s : String) : String :=
  String.mk (((s.data.dropWhile jsWs).reverse.dropWhile jsWs).reverse)

/-- `isIdleNotification(text)` (lines 43–48): a JSON payload whose
`type` field strictly equals `'idle_notification'`; a parse failure is
caught and yields `false`. -/
def isIdleNotification (text : String) : Bool :=
  if !startsWithLbrace text then false
  else
    match jsonParse text with
    | some parsed =>
      match jGet parsed "type" with
      | some (.str s) => s = "idle_notification"
      | _ => false
    | none => false

/-- `shouldSpeak(msg)` (lines 37–41): text present, not
whitespace-only, not an idle notification. -/
def shouldSpeak (msg : Msg) : Bool :=
  match msg.text with
  | none => false
  | some t =>
    if t = "" || (jsTrim t).length = 0 then false
    else if isIdleNotification t then false
    else true

/-- `msg.from || 'unknown'`. -/
def senderOf (msg : Msg) : String :=
  match msg.sender with
  | some s => if s = "" then "unknown" else s
  | none => "unknown"

/-- `msg.summary || msg.text` (line 81): a truthy summary is preferred
over the raw text for *every* message.  `prepareText` is only reached
behind the `shouldSpeak` guard, so `msg.text` is a present, nonempty
string there; an absent text is embedded as `""`. -/
def selectText (msg : Msg) : String :=
  match msg.summary with
  | some s => if s = "" then msg.text.getD "" else s
  | none => msg.text.getD ""

/-- `t.replace(/_/g, ' ')` — every underscore becomes a space. -/
def replaceUnderscores (s : String) : String :=
  String.mk (s.data.map fun c => if c = '_' then ' ' else c)

/-- `${truthy field or default}` used by the protocol templates, e.g.
`parsed.assignedBy || from`. -/
def jFieldOr (parsed : JVal) (field dflt : String) : String :=
  if jTruthy (jGet parsed field) then jDisplay ((jGet parsed field).getD .null)
  else dflt

/-- `prepareProtocolText(parsed, from)` (lines 64–77).  The `switch`
compares `parsed.type` by strict equality, so a non-string `type`
falls to the default branch, where `parsed.type.replace(/_/g, ' ')`
throws a `TypeError`; the caller's `try` catches it and treats the
message as regular text, which we model by returning `none`. -/
def prepareProtocolText (parsed : JVal) (sender : String) : Option String :=
  match jGet parsed "type" with
  | some (.str "task_assignment") =>
    some (jFieldOr parsed "assignedBy" sender ++ " assigned task: "
      ++ jFieldOr parsed "subject" "unknown")
  | some (.str "shutdown_request") =>
    some (sender ++ " requests shutdown: " ++ jFieldOr parsed "reason" "work complete")
  | some (.str "shutdown_approved") =>
    some (sender ++ " has shut down")
  | some (.str "plan_approval_request") =>
    some (sender ++ " submitted a plan for approval")
  | some (.str t) => some (sender ++ ": " ++ replaceUnderscores t)
  | _ => none

/-! ## Markdown stripping (`stripMarkdown`, lines 50–62)

Each global regex replacement of the source is embedded as a
fuel-indexed scan over the characters (the fuel only bounds the
recursion; `length + 1` always suffices, since every step consumes at
least one input character).  The scans reproduce the JavaScript
left-to-right, non-overlapping global-replace semantics, including
the one-character advance after a failed match attempt. -/

/-- The backtick character. -/
def btick : Char := Char.ofNat 96

/-- Position after the next triple-backtick fence, if any. -/
def dropToFence : List Char → Option (List Char)
  | [] => none
  | c1 :: c2 :: c3 :: rest =>
    if c1 = btick ∧ c2 = btick ∧ c3 = btick then some rest
    else dropToFence (c2 :: c3 :: rest)
  | _ :: rest => dropToFence rest

/-- ``/```[\s\S]*?```/g → ''`` — remove fenced code blocks (an
unclosed opening fence never matches and is kept). -/
def stripCodeBlocks : Nat → List Char → List Char
  | 0, cs => cs
  | _ + 1, [] => []
  | fuel + 1, c1 :: rest0 =>
    match c1 :: rest0 with
    | c1 :: c2 :: c3 :: rest =>
      if c1 = btick ∧ c2 = btick ∧ c3 = btick then
        match dropToFence rest with
        | some rem => stripCodeBlocks fuel rem
        | none => c1 :: stripCodeBlocks fuel rest0
      else c1 :: stripCodeBlocks fuel rest0
    | _ => c1 :: stripCodeBlocks fuel rest0

/-- `` /`([^`]+)`/g → '$1' `` — unwrap inline code. -/
def stripInlineCode : Nat → List Char → List Char
  | 0, cs => cs
  | _ + 1, [] => []
  | fuel + 1, c :: rest =>
    if c = btick then
      match rest.span (fun x => x ≠ btick) with
      | (content, t :: after) =>
        if t = btick ∧ ¬content.isEmpty then content ++ stripInlineCode fuel after
        else c :: stripInlineCode fuel rest
      | _ => c :: stripInlineCode fuel rest
    else c :: stripInlineCode fuel rest

/-- `/\[([^\]]+)\]\([^)]+\)/g → '$1'` — keep only the link label. -/
def stripLinks : Nat → List Char → List Char
  | 0, cs => cs
  | _ + 1, [] => []
  | fuel + 1, '[' :: rest =>
    (match rest.span (fun x => x ≠ ']') with
      | (label, ']' :: '(' :: rest2) =>
        if label.isEmpty then '[' :: stripLinks fuel rest
        else
          match rest2.span (fun x => x ≠ ')') with
          | (url, ')' :: after) =>
            if url.isEmpty then '[' :: stripLinks fuel rest
            else label ++ stripLinks fuel after
          | _ => '[' :: stripLinks fuel rest
      | _ => '[' :: stripLinks fuel rest)
  | fuel + 1, c :: rest => c :: stripLinks fuel rest

/-- `/\*\*([^*]+)\*\*/g → '$1'` — unwrap bold. -/
def stripBold : Nat → List Char → List Char
  | 0, cs => cs
  | _ + 1, [] => []
  | fuel + 1, '*' :: '*' :: rest =>
    (match rest.span (fun x => x ≠ '*') with
      | (content, '*' :: '*' :: after) =>
        if content.isEmpty then '*' :: stripBold fuel ('*' :: rest)
        else content ++ stripBold fuel after
      | _ => '*' :: stripBold fuel ('*' :: rest))
  | fuel + 1, c :: rest => c :: stripBold fuel rest

/-- `/\*([^*]+)\*/g → '$1'` — unwrap italic. -/
def stripItalic : Nat → List Char → List Char
  | 0, cs => cs
  | _ + 1, [] => []
  | fuel + 1, '*' :: rest =>
    (match rest.span (fun x => x ≠ '*') with
      | (content, '*' :: after) =>
        if content.isEmpty then '*' :: stripItalic fuel rest
        else content ++ stripItalic fuel after
      | _ => '*' :: stripItalic fuel rest)
  | fuel + 1, c :: rest => c :: stripItalic fuel rest

/-- `/^#+\s+/gm → ''` — drop heading markers at line starts
(`atStart` tracks whether the scan is at the start of a line). -/
def stripHeadings : Nat → Bool → List Char → List Char
  | 0, _, cs => cs
  | _ + 1, _, [] => []
  | fuel + 1, atStart, c :: rest =>
    if atStart ∧ c = '#' then
      let p := (c :: rest).span (fun x => x = '#')
      let q := p.2.span jsWs
      if q.1.isEmpty then p.1 ++ stripHeadings fuel false p.2
      else stripHeadings fuel (q.1.getLast? = some '\n') q.2
    else c :: stripHeadings fuel (c = '\n') rest

/-- `/\|[^\n]+\|/g → ''` — remove table rows: from a `|` to the last
`|` on the same line, provided at least one character lies between. -/
def stripTables : Nat → List Char → List Char
  | 0, cs => cs
  | _ + 1, [] => []
  | fuel + 1, '|' :: rest =>
    (let p := rest.span (fun x => x ≠ '\n')
     match p.1.reverse.span (fun x => x ≠ '|') with
     | (revAfter, '|' :: revBefore) =>
       if revBefore.isEmpty then '|' :: stripTables fuel rest
       else stripTables fuel (revAfter.reverse ++ p.2)
     | _ => '|' :: stripTables fuel rest)
  | fuel + 1, c :: rest => c :: stripTables fuel rest

/-- `/^[-*]\s+/gm → ''` — drop list-item markers at line starts. -/
def stripListItems : Nat → Bool → List Char → List Char
  | 0, _, cs => cs
  | _ + 1, _, [] => []
  | fuel + 1, atStart, c :: rest =>
    if atStart ∧ (c = '-' ∨ c = '*') then
      let q := rest.span jsWs
      if q.1.isEmpty then c :: stripListItems fuel false rest
      else stripListItems fuel (q.1.getLast? = some '\n') q.2
    else c :: stripListItems fuel (c = '\n') rest

/-- `/\n{2,}/g → '. '` — collapse runs of two or more newlines. -/
def collapseNewlines : Nat → List Char → List Char
  | 0, cs => cs
  | _ + 1, [] => []
  | fuel + 1, '\n' :: '\n' :: rest =>
    '.' :: ' ' :: collapseNewlines fuel (rest.dropWhile (fun x => x = '\n'))
  | fuel + 1, c :: rest => c :: collapseNewlines fuel rest

/-- `stripMarkdown(text)` (lines 50–62): the nine replacements in
source order, then `trim()`. -/
def stripMarkdown (text : String) : String :=
  let cs := text.data
  let cs := stripCodeBlocks (cs.length + 1) cs
  let cs := stripInlineCode (cs.length + 1) cs
  let cs := stripLinks (cs.length + 1) cs
  let cs := stripBold (cs.length + 1) cs
  let cs := stripItalic (cs.length + 1) cs
  let cs := stripHeadings (cs.length + 1) true cs
  let cs := stripTables (cs.length + 1) cs
  let cs := stripListItems (cs.length + 1) true cs
  let cs := collapseNewlines (cs.length + 1) cs
  jsTrim (String.mk cs)

/-- `prepareText(msg)` (lines 79–95): select `summary || text`; if it
starts with `{` and parses as JSON with a truthy `type`, the protocol
rendering (a `TypeError` thrown inside the `try` falls through to the
regular path); otherwise strip Markdown, prepend the speaker, and
truncate to 500 characters with a trailing ellipsis. -/
def prepareText (msg : Msg) : String :=
  let sender := senderOf msg
  let text := selectText msg
  let protoResult : Option String :=
    if startsWithLbrace text then
      match jsonParse text with
      | some parsed =>
        if jTruthy (jGet parsed "type") then prepareProtocolText parsed sender
        else none
      | none => none
    else none
  match protoResult with
  | some s => s
  | none =>
    let text := stripMarkdown text
    let text := sender ++ " says: " ++ text
    if text.length > 500 then text.take 497 ++ "..." else text

/-! ## Voice assignment (`lib.mjs` lines 17–27 and 181–205) -/

/-- A voice `{name, id}`. -/
structure Voice where
  name : String
  id : String
  deriving Repr, DecidableEq

instance : Inhabited Voice := ⟨⟨"", ""⟩⟩

/-- The fixed `VOICE_POOL` constant (lines 17–27). -/
def VOICE_POOL : List Voice :=
  [ ⟨"Rachel", "21m00Tcm4TlvDq8ikWAM"⟩,
    ⟨"Josh", "TxGEqnHWrfWFTfGW9XjX"⟩,
    ⟨"Antoni", "ErXwobaYiN019PkySvjV"⟩,
    ⟨"Domi", "AZnzlk1XvdvUeBnXmlld"⟩,
    ⟨"Arnold", "VR6AewLTigWG4xSOukaG"⟩,
    ⟨"Adam", "pNInz6obpgDQGcFmaJgB"⟩,
    ⟨"Elli", "MF3mGyEYCl7XYWbV9V6O"⟩,
    ⟨"Sam", "yoZ06aMxZJJ28mfd3POQ"⟩,
    ⟨"Bella", "EXAVITQu4vr4xnSDxMaL"⟩ ]

/-- `Map.get` on the insertion-ordered association list embedding of a
JavaScript `Map` (keys are unique by construction, so the first match
is the only one). -/
def mapGet (m : List (String × Voice)) (k : String) : Option Voice :=
  match m with
  | [] => none
  | (k', v) :: rest => if k' = k then some v else mapGet rest k

/-- `Map.set`: overwrite in place when the key is present (a JavaScript
`Map` keeps the original insertion position), append otherwise. -/
def mapSet (m : List (String × Voice)) (k : String) (v : Voice) : List (String × Voice) :=
  match m with
  | [] => [(k, v)]
  | (k', v') :: rest => if k' = k then (k, v) :: rest else (k', v') :: mapSet rest k v

/-- The voice-assignment state: the `voiceAssignments` map and the
round-robin cursor `nextVoiceIndex`. -/
structure AssignSt where
  assignments : List (String × Voice)
  nextVoiceIndex : Nat
  deriving Repr, DecidableEq

/-- The state of a fresh instance: empty table, cursor `0`. -/
def AssignSt.init : AssignSt := ⟨[], 0⟩

/-- `VOICE_POOL[n % VOICE_POOL.length]` — the modulus keeps the index
in bounds, so the `getD` default is never reached. -/
def poolAt (n : Nat) : Voice :=
  VOICE_POOL.getD (n % VOICE_POOL.length) default

/-- `assignVoice(agentName)` (lines 181–188); `saveConfig()` is
asynchronous persistence, outside this model.  Returns the voice
together with the updated state. -/
def assignVoice (st : AssignSt) (agentName : String) : Voice × AssignSt :=
  match mapGet st.assignments agentName with
  | some v => (v, st)
  | none =>
    let voice := poolAt st.nextVoiceIndex
    (voice,
      { assignments := mapSet st.assignments agentName voice
        nextVoiceIndex := st.nextVoiceIndex + 1 })

/-- `manualAssignVoice(agentName, voiceNameOrId)` (lines 190–201):
case-insensitive pool-name lookup or exact id match, else a custom
`{name: voiceNameOrId, id: voiceNameOrId}` entry; always overwrites.
The source returns `voiceAssignments.get(agentName)`, which is the
entry just written. -/
def manualAssignVoice (st : AssignSt) (agentName voiceNameOrId : String) : Voice × AssignSt :=
  let found := VOICE_POOL.find? fun v =>
    v.name.toLower = voiceNameOrId.toLower || v.id = voiceNameOrId
  let assignments :=
    match found with
    | some voice => mapSet st.assignments agentName voice
    | none => mapSet st.assignments agentName ⟨voiceNameOrId, voiceNameOrId⟩
  ((mapGet assignments agentName).getD default,
    { st with assignments := assignments })

/-- `getVoiceForAgent(agentName)` (lines 203–205): the existing entry
(a voice object is always truthy) or an auto-assignment. -/
def getVoiceForAgent (st : AssignSt) (agentName : String) : Voice × AssignSt :=
  match mapGet st.assignments agentName with
  | some v => (v, st)
  | none => assignVoice st agentName

/-- Auto-assigning a list of agents in order, collecting the returned
voices. -/
def assignAll (agents : List String) (st : AssignSt) : List Voice × AssignSt :=
  match agents with
  | [] => ([], st)
  | a :: rest =>
    let (v, st') := assignVoice st a
    let (vs, st'') := assignAll rest st'
    (v :: vs, st'')

/-! ## Inbox message pipeline (`processInboxFile`, lines 245–251) -/

/-- The state touched by the per-message pipeline: the fingerprint set,
the voice table and the playback queue. -/
structure PipelineSt where
  seen : List String
  assign : AssignSt
  server : ServerSt
  deriving Repr, DecidableEq

/-- The loop body of `processInboxFile` for one message (lines
245–251): eligibility gate, deduplication, formatting, voice
resolution, enqueue.  The enqueued item is
`{ text, voiceId: voice.id, from: msg.from }`, whose `bypassMute` is
absent (falsy). -/
def processMessage (errs : QItem → Bool) (ps : PipelineSt) (msg : Msg) : PipelineSt :=
  if !shouldSpeak msg then ps
  else
    let (dup, seen) := isDuplicate msg ps.seen
    if dup then { ps with seen := seen }
    else
      let text := prepareText msg
      let (voice, assign) := getVoiceForAgent ps.assign (senderOf msg)
      { seen := seen
        assign := assign
        server := enqueue errs ps.server
          { text := text, voiceId := voice.id, sender := msg.sender, bypassMute := false } }

/-- Processing a batch of newly appended messages in order. -/
def processMessages (errs : QItem → Bool) (msgs : List Msg) (ps : PipelineSt) : PipelineSt :=
  msgs.foldl (processMessage errs) ps

/-! ## Coordination layer (leader election and forwarding)

Modelled from the spec: the Unix-domain-socket coordination layer
(leader election on the `playback.sock` rendezvous channel and
follower-to-leader forwarding, §4.1 of the spec) is exercised by the
repository's `socket-queue` test suite but its implementation is not
among the sources under verification; `lib.mjs` as given always
enqueues locally.  Following the spec's words: a Follower's
`enqueue(item)` serializes the item and sends it to the Leader instead
of pushing to its own Playback Queue, and the Leader, on receiving a
forwarded item, pushes it onto its own queue exactly as if it had been
enqueued locally. -/

/-- A group of cooperating processes at steady state: exactly one
Leader and the Followers, each with its own process-local state. -/
structure CoordSystem where
  leader : ServerSt
  followers : List ServerSt
  deriving Repr, DecidableEq

/-- Modelled from the spec: `enqueue(item)` called on the `i`-th
Follower process — the item travels over the rendezvous channel and is
enqueued locally on the Leader; no Follower state changes. -/
def followerEnqueue (errs : QItem → Bool) (sys : CoordSystem) (i : Nat) (item : QItem) :
    CoordSystem :=
  { sys with leader := enqueue errs sys.leader item }

/-! # Lemmas -/

/-- A `drain` entered while a playback is in flight is a no-op. -/
theorem drain_playing (errs : QItem → Bool) (st : ServerSt) (h : st.isPlaying = true) :
    drain errs st = st := by
  rw [drain]
  simp [h]

/-- Run-to-quiescence characterisation of `drain`: entered idle, it
empties the queue, invokes synthesis for every item in order, plays
the non-failing ones, and logs the failing ones. -/
theorem drain_run (errs : QItem → Bool) :
    ∀ (q : List QItem) (st : ServerSt), st.isPlaying = false → st.queue = q →
      drain errs st =
        { st with queue := []
                  synthCalls := st.synthCalls ++ q
                  played := st.played ++ q.filter (fun i => !errs i)
                  errLog := st.errLog ++ q.filter errs } := by
  intro q
  induction q with
  | nil =>
    intro st hp hq
    rw [drain]
    obtain ⟨m, q0, p, sc, pl, el⟩ := st
    simp_all
  | cons a rest ih =>
    intro st hp hq
    rw [drain]
    obtain ⟨m, q0, p, sc, pl, el⟩ := st
    subst hq hp
    simp only [List.isEmpty_cons, Bool.false_or, if_neg Bool.false_ne_true]
    split
    · rw [ih]
      · simp [List.filter_cons, *]
      · rfl
      · rfl
    · rw [ih]
      · simp [List.filter_cons, *]
      · rfl
      · rfl

/-- `drain` only appends to the synthesis trace. -/
theorem drain_synth_extend (errs : QItem → Bool) (st : ServerSt) :
    ∃ t, (drain errs st).synthCalls = st.synthCalls ++ t := by
  cases hp : st.isPlaying with
  | true => exact ⟨[], by rw [drain_playing errs st hp, List.append_nil]⟩
  | false => exact ⟨st.queue, by rw [drain_run errs st.queue st hp rfl]⟩

/-- `drain` never lengthens the queue. -/
theorem drain_queue_le (errs : QItem → Bool) (st : ServerSt) :
    (drain errs st).queue.length ≤ st.queue.length := by
  cases hp : st.isPlaying with
  | true => rw [drain_playing errs st hp]
  | false => simp [drain_run errs st.queue st hp rfl]

/-- A muted `enqueue` without `bypassMute` leaves the whole state
untouched (and raises no error: `enqueue` is total). -/
theorem enqueue_muted (errs : QItem → Bool) (st : ServerSt) (item : QItem)
    (hm : st.muted = true) (hb : item.bypassMute = false) :
    enqueue errs st item = st := by
  simp [enqueue, hm, hb]

/-- An accepted `enqueue` while a playback is in flight only performs
the queue update: the triggered `drain` returns at its guard. -/
theorem enqueue_blocked (errs : QItem → Bool) (st : ServerSt) (item : QItem)
    (hp : st.isPlaying = true) (hacc : (st.muted && !item.bypassMute) = false) :
    enqueue errs st item = { st with queue := enqueueUpdate st.queue item } := by
  rw [enqueue, if_neg (by simp [hacc]), drain_playing]
  exact hp

/-- A `Bool`-valued membership bridge for the fingerprint set. -/
theorem contains_eq_false_of_not_mem {l : List String} {a : String} (h : a ∉ l) :
    l.contains a = false := by
  simpa using h

/-- One `isDuplicate` call keeps the fingerprint set at ≤ 100 entries. -/
theorem isDuplicate_le (msg : Msg) (seen : List String) (h : seen.length ≤ 100) :
    ((isDuplicate msg seen).2).length ≤ 100 := by
  simp only [isDuplicate]
  split
  · exact h
  · split
    · next h2 => simp at h2 ⊢; omega
    · next h2 => simp at h2 ⊢; omega

/-- Running `isDuplicate` over messages with pairwise-fresh
fingerprints keeps exactly the most recent 100 fingerprints, oldest
evicted first. -/
theorem runDedup_fresh :
    ∀ (msgs : List Msg) (seen : List String),
      (seen ++ msgs.map fingerprint).Nodup → seen.length ≤ 100 →
      runDedup msgs seen =
        (seen ++ msgs.map fingerprint).drop (seen.length + msgs.length - 100) := by
  intro msgs
  induction msgs with
  | nil =>
    intro seen hnd hle
    simp [runDedup, Nat.sub_eq_zero_of_le hle]
  | cons m rest ih =>
    intro seen hnd hle
    have hstep : runDedup (m :: rest) seen = runDedup rest (isDuplicate m seen).2 := rfl
    have hnotmem : fingerprint m ∉ seen := by
      rw [List.map_cons] at hnd
      have hd := (List.nodup_append.mp hnd).2.2
      intro hmem
      exact hd hmem (List.mem_cons_self _ _)
    have hcont : seen.contains (fingerprint m) = false :=
      contains_eq_false_of_not_mem hnotmem
    rw [hstep]
    simp only [isDuplicate, hcont, Bool.false_eq_true, if_false]
    by_cases hlen : seen.length = 100
    · cases seen with
      | nil => simp at hlen
      | cons s0 seen' =>
        have hlen' : seen'.length = 99 := by simpa using hlen
        have hcond : (((s0 :: seen') ++ [fingerprint m]).length > 100) := by
          simp [hlen']
        rw [if_pos hcond]
        have htail : ((s0 :: seen') ++ [fingerprint m]).tail = seen' ++ [fingerprint m] := by
          simp
        rw [htail]
        have hnd' : ((seen' ++ [fingerprint m]) ++ rest.map fingerprint).Nodup := by
          have h0 : ((s0 :: seen') ++ (m :: rest).map fingerprint).Nodup := hnd
          simp only [List.map_cons, List.cons_append] at h0
          have h2 := h0.of_cons
          simpa [List.append_assoc] using h2
        have hle' : (seen' ++ [fingerprint m]).length ≤ 100 := by simp [hlen']
        rw [ih _ hnd' hle']
        simp only [List.map_cons]
        have hA : (s0 :: seen').length + (m :: rest).length - 100 = rest.length + 1 := by
          simp [hlen']
        rw [hA, List.cons_append, List.drop_succ_cons]
        have hB : (seen' ++ [fingerprint m]).length + rest.length - 100 = rest.length := by
          simp [hlen']
        rw [hB, List.append_assoc, List.singleton_append]
    · have hlt : seen.length < 100 := lt_of_le_of_ne hle hlen
      have hcond : ¬ ((seen ++ [fingerprint m]).length > 100) := by
        simp
        omega
      rw [if_neg hcond]
      have hnd' : ((seen ++ [fingerprint m]) ++ rest.map fingerprint).Nodup := by
        have h0 : (seen ++ (m :: rest).map fingerprint).Nodup := hnd
        simpa [List.append_assoc] using h0
      have hle' : (seen ++ [fingerprint m]).length ≤ 100 := by
        simp
        omega
      rw [ih _ hnd' hle']
      simp only [List.map_cons]
      rw [List.append_assoc, List.singleton_append]
      congr 1
      simp
      omega

/-- `Map.set` then `Map.get`: the written key reads back the value,
all other keys are untouched. -/
theorem mapGet_mapSet (m : List (String × Voice)) (k : String) (v : Voice) (b : String) :
    mapGet (mapSet m k v) b = if b = k then some v else mapGet m b := by
  induction m with
  | nil =>
    by_cases h : b = k <;> simp [mapGet, mapSet, h, Ne.symm]
  | cons p rest ih =>
    obtain ⟨k', v'⟩ := p
    by_cases hk : k' = k
    · subst hk
      by_cases hb : b = k' <;> simp [mapGet, mapSet, hb, Ne.symm]
    · by_cases hb : b = k
      · subst hb
        have hkb : k' ≠ b := hk
        simp [mapGet, mapSet, hk, hkb, ih]
      · simp only [mapSet, if_neg hk, mapGet]
        by_cases hb' : k' = b <;> simp [hb', ih, hb]

/-- Auto-assigning fresh, pairwise-distinct agents hands out
`poolAt cursor, poolAt (cursor+1), …` and advances the cursor by the
number of agents. -/
theorem assignAll_spec :
    ∀ (agents : List String) (st : AssignSt),
      agents.Nodup → (∀ a ∈ agents, mapGet st.assignments a = none) →
      (assignAll agents st).1
          = (List.range agents.length).map (fun n => poolAt (st.nextVoiceIndex + n)) ∧
        (assignAll agents st).2.nextVoiceIndex = st.nextVoiceIndex + agents.length := by
  intro agents
  induction agents with
  | nil => intro st hnd hall; simp [assignAll]
  | cons a rest ih =>
    intro st hnd hall
    have hfresh : mapGet st.assignments a = none := hall a (List.mem_cons_self _ _)
    have hanotin : a ∉ rest := (List.nodup_cons.mp hnd).1
    have hrest := ih { assignments := mapSet st.assignments a (poolAt st.nextVoiceIndex)
                       nextVoiceIndex := st.nextVoiceIndex + 1 }
      (List.nodup_cons.mp hnd).2
      (by
        intro b hb
        have hba : b ≠ a := fun h => hanotin (h ▸ hb)
        simp only [mapGet_mapSet, if_neg hba]
        exact hall b (List.mem_cons_of_mem _ hb))
    have hproj : ({ assignments := mapSet st.assignments a (poolAt st.nextVoiceIndex)
                    nextVoiceIndex := st.nextVoiceIndex + 1 } : AssignSt).nextVoiceIndex
        = st.nextVoiceIndex + 1 := rfl
    constructor
    · simp only [assignAll, assignVoice, hfresh]
      rw [hrest.1]
      simp only [List.length_cons, List.range_succ_eq_map, List.map_cons, List.map_map, hproj]
      congr 1
      congr 1
      funext n
      simp only [Function.comp]
      congr 1
      omega
    · simp only [assignAll, assignVoice, hfresh]
      rw [hrest.2, hproj]
      simp only [List.length_cons]
      omega

/-- Two assignment states with equal cursors that agree on every key
other than `agent` hand out the same voices to any agents other than
`agent`. -/
theorem assignAll_avoid :
    ∀ (ys : List String) (st1 st2 : AssignSt) (agent : String),
      st1.nextVoiceIndex = st2.nextVoiceIndex →
      (∀ b, b ≠ agent → mapGet st1.assignments b = mapGet st2.assignments b) →
      (∀ y ∈ ys, y ≠ agent) →
      (assignAll ys st1).1 = (assignAll ys st2).1 := by
  intro ys
  induction ys with
  | nil => intro st1 st2 agent h1 h2 h3; simp [assignAll]
  | cons y rest ih =>
    intro st1 st2 agent hidx hget hav
    have hy : y ≠ agent := hav y (List.mem_cons_self _ _)
    have hgy : mapGet st1.assignments y = mapGet st2.assignments y := hget y hy
    have hrestav : ∀ z ∈ rest, z ≠ agent := fun z hz => hav z (List.mem_cons_of_mem _ hz)
    cases hcase : mapGet st2.assignments y with
    | some v =>
      simp only [assignAll, assignVoice, hgy, hcase]
      rw [ih st1 st2 agent hidx hget hrestav]
    | none =>
      simp only [assignAll, assignVoice, hgy, hcase, hidx]
      congr 1
      apply ih _ _ agent
      · simp [hidx]
      · intro b hb
        rw [mapGet_mapSet, mapGet_mapSet]
        by_cases hby : b = y
        · simp [hby]
        · simp [hby, hget b hb]
      · exact hrestav

/-- `enqueue` only appends to the synthesis trace. -/
theorem enqueue_synth_extend (errs : QItem → Bool) (st : ServerSt) (item : QItem) :
    ∃ t, (enqueue errs st item).synthCalls = st.synthCalls ++ t := by
  rw [enqueue]
  split
  · exact ⟨[], by simp⟩
  · obtain ⟨t, ht⟩ := drain_synth_extend errs { st with queue := enqueueUpdate st.queue item }
    exact ⟨t, ht⟩

/-- While a playback is in flight, a sequence of accepted `enqueue`
calls only folds the queue-update step over the queue. -/
theorem foldl_enqueue_blocked (errs : QItem → Bool) :
    ∀ (items : List QItem) (st : ServerSt), st.muted = false → st.isPlaying = true →
      items.foldl (enqueue errs) st = { st with queue := items.foldl enqueueUpdate st.queue } := by
  intro items
  induction items with
  | nil => intro st hm hp; simp
  | cons i rest ih =>
    intro st hm hp
    rw [List.foldl_cons, enqueue_blocked errs st i hp (by simp [hm])]
    rw [ih { st with queue := enqueueUpdate st.queue i } hm hp]
    rfl

/-! # Claim theorems -/

/-- C1 (amended): `enqueue` trims only when the backlog already holds
≥ 10 items (that is, when appending would bring it to ≥ 11); the
backlog is then trimmed to its most recent 5 items before the new item
is appended, leaving exactly 6.  Enqueuing 11 items while the queue is
blocked processing item 1 leaves a final backlog of exactly the 5 most
recent of the pending 10 plus the 11th.  The worst-case backlog is 10
(see the counterexample), not 6; an `enqueue` never raises it above
10. -/
theorem claim_C1_theorem :
    (∀ (errs : QItem → Bool) (st : ServerSt) (item : QItem),
        st.muted = false → st.isPlaying = true → 10 ≤ st.queue.length →
        (enqueue errs st item).queue = st.queue.drop (st.queue.length - 5) ++ [item] ∧
        (enqueue errs st item).queue.length = 6) ∧
    (∀ (errs : QItem → Bool) (f : Nat → QItem),
        (((List.range 11).map f).foldl (enqueue errs)
            { ServerSt.init with isPlaying := true }).queue
          = [f 5, f 6, f 7, f 8, f 9, f 10]) ∧
    (∀ (errs : QItem → Bool) (st : ServerSt) (item : QItem),
        st.queue.length ≤ 10 → (enqueue errs st item).queue.length ≤ 10) := by
  refine ⟨?_, ?_, ?_⟩
  · intro errs st item hm hp hlen
    have hacc : (st.muted && !item.bypassMute) = false := by simp [hm]
    rw [enqueue_blocked errs st item hp hacc]
    constructor
    · simp [enqueueUpdate, if_pos hlen]
    · simp [enqueueUpdate, if_pos hlen]
      omega
  · intro errs f
    rw [foldl_enqueue_blocked errs _ _ rfl rfl]
    show ((List.range 11).map f).foldl enqueueUpdate [] = _
    simp only [List.range_succ, List.range_zero, List.map_append, List.map_cons,
      List.map_nil, List.nil_append, List.cons_append, List.foldl_append,
      List.foldl_cons, List.foldl_nil]
    simp [enqueueUpdate]
  · intro errs st item hlen
    rw [enqueue]
    split
    · exact hlen
    · calc (drain errs { st with queue := enqueueUpdate st.queue item }).queue.length
          ≤ (enqueueUpdate st.queue item).length := drain_queue_le _ _
        _ ≤ 10 := by
            simp only [enqueueUpdate, List.length_append]
            split <;> simp <;> omega

/-- C1 (counterexample): enqueuing 10 items while the queue is blocked
leaves a backlog of 10 items — appending the 10th brought the backlog
to ≥ 10 without a prior trim, so the worst-case backlog exceeds the
claimed 6. -/
theorem claim_C1_counterexample :
    (((List.range 10).map (fun i => ({ text := toString i, voiceId := "v" } : QItem))).foldl
        (enqueue (fun _ => false)) { ServerSt.init with isPlaying := true }).queue.length = 10 ∧
    ¬ (((List.range 10).map (fun i => ({ text := toString i, voiceId := "v" } : QItem))).foldl
        (enqueue (fun _ => false)) { ServerSt.init with isPlaying := true }).queue.length ≤ 6 := by
  rw [foldl_enqueue_blocked (fun _ => false) _ _ rfl rfl]
  constructor
  · show (((List.range 10).map (fun i => ({ text := toString i, voiceId := "v" } : QItem))).foldl
        enqueueUpdate []).length = 10
    simp only [List.range_succ, List.range_zero, List.map_append, List.map_cons,
      List.map_nil, List.nil_append, List.cons_append, List.foldl_append,
      List.foldl_cons, List.foldl_nil]
    simp [enqueueUpdate]
  · show ¬ (((List.range 10).map (fun i => ({ text := toString i, voiceId := "v" } : QItem))).foldl
        enqueueUpdate []).length ≤ 6
    simp only [List.range_succ, List.range_zero, List.map_append, List.map_cons,
      List.map_nil, List.nil_append, List.cons_append, List.foldl_append,
      List.foldl_cons, List.foldl_nil]
    simp [enqueueUpdate]

/-- C1 (witness): the trim branch of `claim_C1_theorem` at a concrete
blocked queue of 10 items. -/
theorem claim_C1_witness :
    (enqueue (fun _ => false)
        { ServerSt.init with
          isPlaying := true
          queue := (List.range 10).map (fun i => ({ text := toString i, voiceId := "v" } : QItem)) }
        { text := "x", voiceId := "v" }).queue.length = 6 :=
  ( claim_C1_theorem.1 (fun _ => false)
    { ServerSt.init with
      isPlaying := true
      queue := (List.range 10).map (fun i => ({ text := toString i, voiceId := "v" } : QItem)) }
    { text := "x", voiceId := "v" } rfl rfl (by simp)).2

/-- C10 (counterexample): on an idle, unmuted server the `drain`
triggered by `enqueue` itself consumes the new item before the call
returns, so the enqueued item is *not* at the tail of the queue when
the call returns. -/
theorem claim_C10_counterexample :
    (enqueue (fun _ => false) ServerSt.init { text := "hello", voiceId := "v" }).queue.getLast?
      ≠ some { text := "hello", voiceId := "v" } := by
  have h1 : enqueue (fun _ => false) ServerSt.init { text := "hello", voiceId := "v" }
      = drain (fun _ => false)
          { ServerSt.init with queue := [{ text := "hello", voiceId := "v" }] } := by
    rw [enqueue]
    rfl
  rw [h1, drain_run (fun _ => false) [{ text := "hello", voiceId := "v" }] _ rfl rfl]
  simp

/-- C10 (amended): the queue-update step of an accepted `enqueue`
always places the new item at the tail, and backlog trimming removes
only items from the front (the result is a suffix of the old queue
plus the new item); when a playback is already in flight this is
exactly the queue when the call returns — on an idle queue the
triggered `drain` may already have consumed items by then. -/
theorem claim_C10_theorem :
    (∀ (q : List QItem) (item : QItem),
        (enqueueUpdate q item).getLast? = some item ∧
        ∃ k, enqueueUpdate q item = q.drop k ++ [item]) ∧
    (∀ (errs : QItem → Bool) (st : ServerSt) (item : QItem),
        (st.muted && !item.bypassMute) = false → st.isPlaying = true →
        (enqueue errs st item).queue = enqueueUpdate st.queue item) := by
  constructor
  · intro q item
    constructor
    · simp [enqueueUpdate]
    · by_cases h : q.length ≥ 10
      · exact ⟨q.length - 5, by simp [enqueueUpdate, if_pos h]⟩
      · exact ⟨0, by simp [enqueueUpdate, if_neg h]⟩
  · intro errs st item hacc hp
    rw [enqueue_blocked errs st item hp hacc]

/-- C10 (witness): `claim_C10_theorem` applied to a blocked one-item
queue. -/
theorem claim_C10_witness :
    (enqueue (fun _ => false)
        { ServerSt.init with isPlaying := true, queue := [{ text := "a", voiceId := "v" }] }
        { text := "b", voiceId := "v" }).queue
      = enqueueUpdate [{ text := "a", voiceId := "v" }] { text := "b", voiceId := "v" } :=
  claim_C10_theorem.2 (fun _ => false)
    { ServerSt.init with isPlaying := true, queue := [{ text := "a", voiceId := "v" }] }
    { text := "b", voiceId := "v" } rfl rfl

/-- C5: while muted, an `enqueue` without `bypassMute` is rejected
silently — the state is completely unchanged, so no synthesis call can
ever arise from it; an `enqueue` with `bypassMute` while muted is
appended and reaches synthesis (`generateTTS` receives the item when
the queue drains). -/
theorem claim_C5_theorem :
    (∀ (errs : QItem → Bool) (st : ServerSt) (item : QItem),
        st.muted = true → item.bypassMute = false → enqueue errs st item = st) ∧
    (∀ (errs : QItem → Bool) (st : ServerSt) (item : QItem),
        st.muted = true → item.bypassMute = true → st.isPlaying = false →
        item ∈ (enqueue errs st item).synthCalls) ∧
    (∀ (errs : QItem → Bool) (st : ServerSt) (item : QItem),
        st.muted = true → item.bypassMute = true → st.isPlaying = true →
        (enqueue errs st item).queue.getLast? = some item) := by
  refine ⟨?_, ?_, ?_⟩
  · exact fun errs st item hm hb => enqueue_muted errs st item hm hb
  · intro errs st item hm hb hp
    rw [enqueue, if_neg (by simp [hb])]
    rw [drain_run errs (enqueueUpdate st.queue item)
      { st with queue := enqueueUpdate st.queue item } hp rfl]
    simp [enqueueUpdate]
  · intro errs st item hm hb hp
    rw [enqueue_blocked errs st item hp (by simp [hb])]
    simp [enqueueUpdate]

/-- C5 (witness): a muted drop and a muted bypass at concrete
inputs. -/
theorem claim_C5_witness :
    (enqueue (fun _ => false) { ServerSt.init with muted := true } { text := "m", voiceId := "v" }
        = { ServerSt.init with muted := true }) ∧
    ({ text := "b", voiceId := "v", sender := none, bypassMute := true } : QItem)
      ∈ (enqueue (fun _ => false) { ServerSt.init with muted := true }
          { text := "b", voiceId := "v", sender := none, bypassMute := true }).synthCalls :=
  ⟨claim_C5_theorem.1 (fun _ => false) { ServerSt.init with muted := true }
      { text := "m", voiceId := "v" } rfl rfl,
    claim_C5_theorem.2.1 (fun _ => false) { ServerSt.init with muted := true }
      { text := "b", voiceId := "v", sender := none, bypassMute := true } rfl rfl rfl⟩

/-- C7: a failing item in the queue is caught, not re-raised: `drain`
still empties the queue, synthesis is attempted for every item in
order, every non-failing item is still played, and the failing item is
logged. -/
theorem claim_C7_theorem :
    ∀ (errs : QItem → Bool) (st : ServerSt) (bad : QItem),
      st.isPlaying = false → bad ∈ st.queue → errs bad = true →
      (drain errs st).queue = [] ∧
      (drain errs st).synthCalls = st.synthCalls ++ st.queue ∧
      (drain errs st).played = st.played ++ st.queue.filter (fun i => !errs i) ∧
      bad ∈ (drain errs st).errLog := by
  intro errs st bad hp hmem herr
  rw [drain_run errs st.queue st hp rfl]
  refine ⟨rfl, rfl, rfl, ?_⟩
  simp only [List.mem_append, List.mem_filter]
  exact Or.inr ⟨hmem, herr⟩

/-- C7 (witness): a three-item queue whose middle item fails still
plays the other two. -/
theorem claim_C7_witness :
    (drain (fun it => it.text = "bad")
        { ServerSt.init with
          queue := [{ text := "a", voiceId := "v" }, { text := "bad", voiceId := "v" },
            { text := "c", voiceId := "v" }] }).played
      = [{ text := "a", voiceId := "v" }, { text := "c", voiceId := "v" }] := by
  have h := claim_C7_theorem (fun it => it.text = "bad")
    { ServerSt.init with
      queue := [{ text := "a", voiceId := "v" }, { text := "bad", voiceId := "v" },
        { text := "c", voiceId := "v" }] }
    { text := "bad", voiceId := "v" } rfl (by simp) (by simp)
  rw [h.2.2.1]
  rfl

/-- C3: a Follower's `enqueue` leaves every Follower's state (queue
and synthesis trace included) unchanged and performs the enqueue on
the Leader exactly as a local one, whose synthesis trace is only
extended — so every synthesis call caused by a Follower's `enqueue`
happens on the Leader process, never on the Follower. -/
theorem claim_C3_theorem :
    ∀ (errs : QItem → Bool) (sys : CoordSystem) (i : Nat) (item : QItem),
      (followerEnqueue errs sys i item).followers = sys.followers ∧
      (followerEnqueue errs sys i item).leader = enqueue errs sys.leader item ∧
      ∃ t, (followerEnqueue errs sys i item).leader.synthCalls
        = sys.leader.synthCalls ++ t := by
  intro errs sys i item
  exact ⟨rfl, rfl, enqueue_synth_extend errs sys.leader item⟩

/-- C2 (counterexample): a message whose `text` is a protocol JSON
payload (`type` present) but which also carries a plain truthy
`summary` is rendered as a regular message from the summary, not as
the protocol sentence — the summary preference runs before the
protocol check, not only for non-protocol messages. -/
theorem claim_C2_counterexample :
    prepareText { sender := some "a",
                  text := some "\x7b\"type\":\"shutdown_approved\"\x7d",
                  summary := some "done" } = "a says: done" ∧
    jGet ((jsonParse "\x7b\"type\":\"shutdown_approved\"\x7d").getD .null) "type"
      = some (.str "shutdown_approved") ∧
    prepareProtocolText ((jsonParse "\x7b\"type\":\"shutdown_approved\"\x7d").getD .null) "a"
      = some "a has shut down" ∧
    "a says: done" ≠ "a has shut down" := by
  refine ⟨rfl, rfl, rfl, by decide⟩

/-- C2 (amended): `prepareText` first selects `summary || text` for
*every* message; whenever that selected string starts with `{`, parses
as JSON with a truthy `type` field and its protocol rendering does not
throw, the templated protocol sentence for that type is returned.  So
the protocol rendering applies to the summary-or-text selection, and
the summary preference is unconditional, not restricted to
non-protocol messages. -/
theorem claim_C2_theorem :
    (∀ (msg : Msg) (parsed : JVal) (out : String),
        startsWithLbrace (selectText msg) = true →
        jsonParse (selectText msg) = some parsed →
        jTruthy (jGet parsed "type") = true →
        prepareProtocolText parsed (senderOf msg) = some out →
        prepareText msg = out) ∧
    (∀ (msg : Msg) (s : String), msg.summary = some s → s ≠ "" →
        prepareText msg
          = prepareText { sender := msg.sender, text := some s,
                          timestamp := msg.timestamp, summary := none }) := by
  constructor
  · intro msg parsed out h1 h2 h3 h4
    simp only [prepareText, h1, if_true, h2, h3, h4]
  · intro msg s h1 h2
    simp only [prepareText, selectText, senderOf, h1, if_neg h2, Option.getD_some]

/-- C2 (witness): the spec's own example — a `shutdown_request` with a
reason renders the protocol sentence. -/
theorem claim_C2_witness :
    prepareText { sender := some "agent-1",
                  text := some "\x7b\"type\":\"shutdown_request\",\"reason\":\"all done\"\x7d" }
      = "agent-1 requests shutdown: all done" :=
  claim_C2_theorem.1
    { sender := some "agent-1",
      text := some "\x7b\"type\":\"shutdown_request\",\"reason\":\"all done\"\x7d" }
    ((jsonParse "\x7b\"type\":\"shutdown_request\",\"reason\":\"all done\"\x7d").getD .null)
    "agent-1 requests shutdown: all done" rfl rfl rfl rfl

/-- C9: the fingerprint concatenates `from`, `text` and `timestamp`
with no separator, so the two distinct messages
`{from: "ab", text: "c"}` and `{from: "a", text: "bc"}` (equal
timestamps) — which differ in both `from` and `text` — collide;
processing the second right after the first classifies it as a
duplicate, and the pipeline enqueues only one of the two messages. -/
theorem claim_C9_theorem :
    ({ sender := some "ab", text := some "c", timestamp := some "t" } : Msg)
        ≠ { sender := some "a", text := some "bc", timestamp := some "t" } ∧
    ({ sender := some "ab", text := some "c", timestamp := some "t" } : Msg).sender
        ≠ ({ sender := some "a", text := some "bc", timestamp := some "t" } : Msg).sender ∧
    ({ sender := some "ab", text := some "c", timestamp := some "t" } : Msg).text
        ≠ ({ sender := some "a", text := some "bc", timestamp := some "t" } : Msg).text ∧
    fingerprint { sender := some "ab", text := some "c", timestamp := some "t" }
      = fingerprint { sender := some "a", text := some "bc", timestamp := some "t" } ∧
    (isDuplicate { sender := some "ab", text := some "c", timestamp := some "t" } []).1
      = false ∧
    (isDuplicate { sender := some "a", text := some "bc", timestamp := some "t" }
        (isDuplicate { sender := some "ab", text := some "c", timestamp := some "t" } []).2).1
      = true ∧
    shouldSpeak { sender := some "a", text := some "bc", timestamp := some "t" } = true ∧
    (processMessages (fun _ => false)
        [{ sender := some "ab", text := some "c", timestamp := some "t" },
         { sender := some "a", text := some "bc", timestamp := some "t" }]
        { seen := [], assign := AssignSt.init,
          server := { ServerSt.init with isPlaying := true } }).server.queue.length = 1 := by
  refine ⟨by decide, by decide, by decide, rfl, rfl, rfl, rfl, ?_⟩
  show (enqueue (fun _ => false) { ServerSt.init with isPlaying := true }
      { text := "ab says: c", voiceId := "21m00Tcm4TlvDq8ikWAM",
        sender := some "ab", bypassMute := false }).queue.length = 1
  rw [enqueue_blocked (fun _ => false) { ServerSt.init with isPlaying := true }
    { text := "ab says: c", voiceId := "21m00Tcm4TlvDq8ikWAM",
      sender := some "ab", bypassMute := false } rfl rfl]
  rfl

/-- C3 (witness): `claim_C3_theorem` (which has no propositional
hypotheses) at a concrete two-process system. -/
theorem claim_C3_witness :
    (followerEnqueue (fun _ => false)
        { leader := ServerSt.init, followers := [ServerSt.init] } 0
        { text := "hi", voiceId := "v" }).followers = [ServerSt.init] :=
  ( claim_C3_theorem (fun _ => false)
    { leader := ServerSt.init, followers := [ServerSt.init] } 0
    { text := "hi", voiceId := "v" }).1

/-- C4: after every `isDuplicate` call from a set of at most 100
fingerprints the set again holds at most 100 (so a run from the empty
set never exceeds 100), and eviction is oldest-first: after inserting
101 messages with pairwise-distinct fingerprints, the first message's
fingerprint has been evicted and it is no longer considered a
duplicate. -/
theorem claim_C4_theorem :
    (∀ (msg : Msg) (seen : List String), seen.length ≤ 100 →
        ((isDuplicate msg seen).2).length ≤ 100) ∧
    (∀ (msgs : List Msg) (seen : List String), seen.length ≤ 100 →
        (runDedup msgs seen).length ≤ 100) ∧
    (∀ (msgs : List Msg) (m : Msg),
        (msgs.map fingerprint).Nodup → msgs.length = 101 → msgs.head? = some m →
        (isDuplicate m (runDedup msgs [])).1 = false) := by
  refine ⟨isDuplicate_le, ?_, ?_⟩
  · intro msgs
    induction msgs with
    | nil => intro seen h; exact h
    | cons m rest ih =>
      intro seen h
      exact ih _ (isDuplicate_le m seen h)
  · intro msgs m hnd hlen hhead
    cases msgs with
    | nil => simp at hhead
    | cons m0 rest =>
      have hm : m0 = m := by simpa using hhead
      subst hm
      have hfr := runDedup_fresh (m0 :: rest) [] (by simpa using hnd) (by simp)
      have hidx : ([] : List String).length + (m0 :: rest).length - 100 = 1 := by
        simp [hlen]
      rw [hidx] at hfr
      simp only [List.nil_append, List.map_cons, List.drop_succ_cons, List.drop_zero] at hfr
      rw [hfr]
      have hnm : fingerprint m0 ∉ rest.map fingerprint := by
        rw [List.map_cons] at hnd
        exact (List.nodup_cons.mp hnd).1
      simp only [isDuplicate, contains_eq_false_of_not_mem hnm, Bool.false_eq_true, if_false]
      split <;> rfl

/-- C4 (witness): 101 concrete distinct fingerprints; the first is no
longer a duplicate afterwards. -/
theorem claim_C4_witness :
    (isDuplicate { text := some "0" }
        (runDedup ((List.range 101).map (fun i => ({ text := some (toString i) } : Msg))) [])).1
      = false :=
  claim_C4_theorem.2.2 ((List.range 101).map (fun i => ({ text := some (toString i) } : Msg)))
    { text := some "0" } (by decide) (by decide) (by decide)

/-- C6: auto-assigning voices to distinct fresh agents from the
initial state hands the (n+1)-st agent `VOICE_POOL[n % 9]` — the
cursor increases by one per new agent and the index wraps modulo the
pool size, which covers in particular every agent count larger than
the pool. -/
theorem claim_C6_theorem :
    ∀ (agents : List String), agents.Nodup →
      ((assignAll agents AssignSt.init).1
          = (List.range agents.length).map
              (fun n => VOICE_POOL.getD (n % VOICE_POOL.length) default)) ∧
      (assignAll agents AssignSt.init).2.nextVoiceIndex = agents.length ∧
      (∀ n, n < agents.length →
        (assignAll agents AssignSt.init).1.getD n default
          = VOICE_POOL.getD (n % VOICE_POOL.length) default) := by
  intro agents hnd
  have h := assignAll_spec agents AssignSt.init hnd (fun a _ => rfl)
  have h1 : (assignAll agents AssignSt.init).1
      = (List.range agents.length).map
          (fun n => VOICE_POOL.getD (n % VOICE_POOL.length) default) := by
    rw [h.1]
    show (List.range agents.length).map (fun n => poolAt (0 + n)) = _
    simp [poolAt]
  refine ⟨h1, by rw [h.2]; simp [AssignSt.init], ?_⟩
  intro n hn
  rw [h1]
  rw [List.getD_eq_getElem?_getD, List.getElem?_map, List.getElem?_range hn]
  rfl

/-- C6 (witness): with 10 distinct agents (one more than the pool
size) the 10th agent receives `pool[9 % 9] = pool[0]`. -/
theorem claim_C6_witness :
    (assignAll ["a0", "a1", "a2", "a3", "a4", "a5", "a6", "a7", "a8", "a9"]
        AssignSt.init).1.getD 9 default
      = VOICE_POOL.getD (9 % VOICE_POOL.length) default :=
  ( claim_C6_theorem ["a0", "a1", "a2", "a3", "a4", "a5", "a6", "a7", "a8", "a9"]
    (by decide)).2.2 9 (by decide)

/-- C8: `manualAssignVoice` leaves the round-robin cursor
`nextVoiceIndex` unchanged and touches no other agent's entry, so the
voices later auto-assigned to any agents other than the manually
assigned one are the same as if the manual assignment had not
happened. -/
theorem claim_C8_theorem :
    ∀ (st : AssignSt) (agent nameOrId : String),
      (manualAssignVoice st agent nameOrId).2.nextVoiceIndex = st.nextVoiceIndex ∧
      (∀ b, b ≠ agent →
          mapGet (manualAssignVoice st agent nameOrId).2.assignments b
            = mapGet st.assignments b) ∧
      (∀ ys : List String, (∀ y ∈ ys, y ≠ agent) →
          (assignAll ys (manualAssignVoice st agent nameOrId).2).1
            = (assignAll ys st).1) := by
  intro st agent nameOrId
  obtain ⟨w, hw⟩ : ∃ w, (manualAssignVoice st agent nameOrId).2.assignments
      = mapSet st.assignments agent w := by
    rw [manualAssignVoice]
    cases VOICE_POOL.find? fun v => v.name.toLower = nameOrId.toLower || v.id = nameOrId with
    | none => exact ⟨_, rfl⟩
    | some voice => exact ⟨_, rfl⟩
  refine ⟨rfl, ?_, ?_⟩
  · intro b hb
    rw [hw, mapGet_mapSet, if_neg hb]
  · intro ys hys
    exact assignAll_avoid ys (manualAssignVoice st agent nameOrId).2 st agent rfl
      (fun b hb => by rw [hw, mapGet_mapSet, if_neg hb]) hys

/-- C8 (witness): a manual assignment of Josh to `bob` leaves the
cursor alone and does not change what `carol` is auto-assigned
next. -/
theorem claim_C8_witness :
    ((manualAssignVoice AssignSt.init "bob" "Josh").2.nextVoiceIndex
        = AssignSt.init.nextVoiceIndex) ∧
    (assignAll ["carol"] (manualAssignVoice AssignSt.init "bob" "Josh").2).1
      = (assignAll ["carol"] AssignSt.init).1 :=
  ⟨( claim_C8_theorem AssignSt.init "bob" "Josh").1,
    ( claim_C8_theorem AssignSt.init "bob" "Josh").2.2 ["carol"] (by decide)⟩

end TeamVoices
